import Mathlib

/-!
# Verification of the pycity_dev distributed scheduling coordinator

This development embeds, in Lean 4, the algorithm coordinator of the
pycity_dev repository (Central, Dual Decomposition, Exchange ADMM and
Exchange MIQP-ADMM over an entity tree of one district and N buildings)
together with the two example driver files shipped under `src/examples`.

The coordinator itself (package `pycity_scheduling.algorithms`) is not part
of the shipped source files; only its callers are.  All coordinator
definitions below are therefore modelled from the specification document
(sections 3 to 8), as indicated by their doc comments.  The example files
`example_08_algorithm_parallel_mpi.py` and `out_htmls/server.py` are
embedded directly from their source.
-/

namespace PyCity

/-- A power trajectory: an ordered sequence of power values, one per
timestep.  Powers are modelled as rationals (the Python floats, with exact
arithmetic). -/
abbrev Trajectory := List ℚ

/-- Modelled from the spec (section 6, result surface): the overall status
code returned by a solve run. -/
inductive Status
  | converged
  | iteration_limit_reached
  | solver_failure
deriving DecidableEq, Repr

/-- Modelled from the spec (section 6, local solve interface): the failure
modes of one local subproblem solve. -/
inductive SolveError
  | infeasible
  | unbounded
  | solver_error
deriving DecidableEq, Repr

/-- Modelled from the spec (section 3): the entity tree of one run, one
district (root) with `numBuildings` child buildings, all sharing the
operation horizon `horizon`. -/
structure District where
  numBuildings : ℕ
  horizon : ℕ
deriving DecidableEq, Repr

/-- Modelled from the spec (section 3, Run Configuration): immutable
parameters fixed at solve invocation. -/
structure RunConfiguration where
  rho : ℚ
  eps_primal : ℚ
  eps_dual : ℚ
  max_iterations : ℕ
deriving DecidableEq, Repr

/-- Modelled from the spec (section 6): relaxation mode of the MIQP
variant. -/
inductive MIQPMode
  | integer
  | relaxed
deriving DecidableEq, Repr

/-- Modelled from the spec (section 6): integer-update strategy of the MIQP
variant. -/
inductive XUpdateMode
  | constrained
  | unconstrained
deriving DecidableEq, Repr

/-- Modelled from the spec (section 6, result surface): per-entity
trajectories (district first, then the buildings in order) plus a status
and the number of iterations performed.  On failure no trajectories are
produced. -/
structure SolveResult where
  status : Status
  trajectories : Option (List Trajectory)
  iterations : ℕ
deriving DecidableEq, Repr

/-- Modelled from the spec (section 3, Schedule): the per-entity persisted
schedules, keyed by a run label.  Entry: label together with the per-entity
trajectories saved under that label. -/
structure ScheduleStore where
  entries : List (String × List Trajectory)
deriving DecidableEq, Repr

/-- Elementwise sum of trajectories. -/
def vecAdd (a b : Trajectory) : Trajectory := List.zipWith (· + ·) a b

/-- Elementwise difference of trajectories. -/
def vecSub (a b : Trajectory) : Trajectory := List.zipWith (· - ·) a b

/-- Scalar multiple of a trajectory. -/
def vecScale (c : ℚ) (v : Trajectory) : Trajectory := v.map (fun x => c * x)

/-- The 1-norm used as the scalar residual norm. -/
def norm1 (v : Trajectory) : ℚ := (v.map (fun x => |x|)).sum

/-- The all-zero trajectory over horizon `H`. -/
def zeros (H : ℕ) : Trajectory := List.replicate H 0

/-- Modelled from the spec (section 4.4): the collective sum reduction
forming the aggregate district trajectory from the gathered local
trajectories, over horizon `H`. -/
def aggregateSum (H : ℕ) (ls : List Trajectory) : Trajectory :=
  (List.range H).map (fun t => (ls.map (fun l => l.getD t 0)).sum)

/-- Checks that every gathered trajectory has the expected length `H`
(violations are the CommunicationMismatch failure of spec section 7). -/
def lengthsOk (H : ℕ) (ls : List Trajectory) : Bool :=
  ls.all (fun t => t.length == H)

/-- Modelled from the spec (sections 4.2 and 5): the per-iteration gather.
`localSolve i` is worker i solving its local subproblem under the signal
already broadcast to it; the gather completes only if every listed worker
returns a trajectory (a full barrier, no partial gathers). -/
def gatherFrom (localSolve : ℕ → Except SolveError Trajectory) :
    List ℕ → Option (List Trajectory)
  | [] => some []
  | i :: is =>
    match localSolve i, gatherFrom localSolve is with
    | .ok t, some ts => some (t :: ts)
    | _, _ => none

/-- Gather from workers 0 to n-1. -/
def gather (localSolve : ℕ → Except SolveError Trajectory) (n : ℕ) :
    Option (List Trajectory) :=
  gatherFrom localSolve (List.range n)

/-- The data produced by one completed iteration of an iterative algorithm:
the next signal state, the assembled per-entity trajectories (district
first, then buildings), and the residual pair. -/
structure IterData (σ : Type) where
  next : σ
  trajs : List Trajectory
  rPrimal : ℚ
  rDual : ℚ
deriving DecidableEq

/-- Assembles the per-entity result of one iteration: the district
trajectory is the sum reduction of the gathered building trajectories. -/
def assembleIter {σ : Type} (d : District) (next : σ) (ls : List Trajectory)
    (rp rd : ℚ) : IterData σ :=
  { next := next, trajs := aggregateSum d.horizon ls :: ls,
    rPrimal := rp, rDual := rd }

/-- Modelled from the spec (section 4.1.4): incumbent tracking.  With
`keepBest = true` (MIQP variant) the iterate with the smallest primal
residual seen so far is retained; otherwise the latest iterate is kept. -/
def updateIncumbent (keepBest : Bool) (inc : Option (ℚ × List Trajectory))
    (r : ℚ) (ts : List Trajectory) : Option (ℚ × List Trajectory) :=
  match inc with
  | none => some (r, ts)
  | some (rb, tb) =>
    if keepBest && decide (rb ≤ r) then some (rb, tb) else some (r, ts)

/-- Modelled from the spec (sections 2, 4.1 and 7): the common iteration
skeleton shared by the iterative algorithms.  Each pass performs one full
iteration via `step` (broadcast, parallel local solves, gather, reduction,
residual computation, signal update); a failed iteration aborts the run
with `solver_failure` and no trajectories; a converged iteration returns
the current iterate; an exhausted budget returns the retained incumbent
with `iteration_limit_reached`.  The schedule store is threaded through
unchanged: no iteration writes to it. -/
def runLoop {σ : Type} (step : σ → Option (IterData σ))
    (stop : ℚ → ℚ → Bool) (keepBest : Bool) :
    ℕ → ScheduleStore → σ → ℕ → Option (ℚ × List Trajectory) →
    SolveResult × ScheduleStore
  | 0, store, _, k, inc =>
    ({ status := .iteration_limit_reached,
       trajectories := inc.map Prod.snd, iterations := k }, store)
  | fuel + 1, store, s, k, inc =>
    match step s with
    | none =>
      ({ status := .solver_failure, trajectories := none,
         iterations := k + 1 }, store)
    | some dta =>
      if stop dta.rPrimal dta.rDual then
        ({ status := .converged, trajectories := some dta.trajs,
           iterations := k + 1 }, store)
      else
        runLoop step stop keepBest fuel store dta.next (k + 1)
          (updateIncumbent keepBest inc dta.rPrimal dta.trajs)

/-- Modelled from the spec (section 4.1.3): the signal broadcast to one
worker by the ADMM variants: the penalty parameter together with the pull
target trajectory of the quadratic penalty term. -/
structure ADMMSignal where
  rho : ℚ
  target : Trajectory
deriving DecidableEq, Repr

/-- Modelled from the spec (sections 4.1.4 and 6): the signal broadcast to
one worker by the MIQP variant: as `ADMMSignal` plus the relaxation mode
and the integer-update strategy of the local mixed-integer solve. -/
structure MIQPSignal where
  rho : ℚ
  target : Trajectory
  mode : MIQPMode
  x_update_mode : XUpdateMode
deriving DecidableEq, Repr

/-- Modelled from the spec (sections 3 and 4.1.3): the coordinator-owned
signal state of the ADMM variants: the running average/offset term `u`,
the previous local trajectories `xs` and the previous aggregate `agg`. -/
structure ADMMState where
  u : Trajectory
  xs : List Trajectory
  agg : Trajectory
deriving DecidableEq, Repr

/-- The initial (zero) ADMM signal state of a run. -/
def admmInit (d : District) : ADMMState :=
  { u := zeros d.horizon,
    xs := List.replicate d.numBuildings (zeros d.horizon),
    agg := zeros d.horizon }

/-- Modelled from the spec (section 4.1.2): one Dual Decomposition
iteration.  Signal state: the multiplier trajectory.  Workers solve local
subproblems penalized linearly by the multiplier; the coordinator reduces
by summation, updates the multiplier by the sub-gradient step
`multiplier + rho * aggregate`, and reports the primal residual (norm of
the aggregate deviation from the zero target).  No dual residual is
tracked. -/
def ddStep (solver : ℕ → Trajectory → Except SolveError Trajectory)
    (d : District) (rho : ℚ) (mu : Trajectory) :
    Option (IterData Trajectory) :=
  match gather (fun i => solver i mu) d.numBuildings with
  | none => none
  | some ls =>
    if lengthsOk d.horizon ls then
      some (assembleIter d (vecAdd mu (vecScale rho (aggregateSum d.horizon ls)))
        ls (norm1 (aggregateSum d.horizon ls)) 0)
    else none

/-- The pull target broadcast to worker `i` by the ADMM variants: the
previous aggregate minus the worker's own previous trajectory plus the
running average/offset term (spec section 4.1.3). -/
def admmTarget (d : District) (st : ADMMState) (i : ℕ) : Trajectory :=
  vecAdd (vecSub st.agg (st.xs.getD i (zeros d.horizon))) st.u

/-- The next ADMM signal state after a gather producing locals `ls`:
the running offset absorbs the mean of the new aggregate, and the locals
and aggregate are retained for the next pull targets (spec section
4.1.3). -/
def admmNextState (d : District) (st : ADMMState) (ls : List Trajectory) :
    ADMMState :=
  { u := vecAdd st.u (vecScale (1 / (d.numBuildings : ℚ)) (aggregateSum d.horizon ls)),
    xs := ls,
    agg := aggregateSum d.horizon ls }

/-- The ADMM primal residual: the norms of the gaps between the local
trajectories and the aggregate, summed across entities (spec section
4.1.3). -/
def admmPrimal (d : District) (ls : List Trajectory) : ℚ :=
  (ls.map (fun x => norm1 (vecSub x (aggregateSum d.horizon ls)))).sum

/-- The ADMM dual residual: the norm of `rho` times the change of the
aggregate across iterations (spec section 4.1.3). -/
def admmDual (d : District) (rho : ℚ) (st : ADMMState) (ls : List Trajectory) : ℚ :=
  norm1 (vecScale rho (vecSub (aggregateSum d.horizon ls) st.agg))

/-- Modelled from the spec (section 4.1.3): one Exchange ADMM iteration.
Workers solve local subproblems penalized quadratically toward their pull
targets; the coordinator reduces by summation, updates the running
offset, and reports the primal and dual residuals. -/
def admmStep (solver : ℕ → ADMMSignal → Except SolveError Trajectory)
    (d : District) (rho : ℚ) (st : ADMMState) :
    Option (IterData ADMMState) :=
  match gather (fun i => solver i ⟨rho, admmTarget d st i⟩) d.numBuildings with
  | none => none
  | some ls =>
    if lengthsOk d.horizon ls then
      some (assembleIter d (admmNextState d st ls) ls
        (admmPrimal d ls) (admmDual d rho st ls))
    else none

/-- Modelled from the spec (section 4.1.4): one Exchange MIQP-ADMM
iteration — the Exchange ADMM skeleton, with the relaxation mode and
integer-update strategy passed to every local (mixed-integer) solve. -/
def miqpStep (solver : ℕ → MIQPSignal → Except SolveError Trajectory)
    (mode : MIQPMode) (xum : XUpdateMode)
    (d : District) (rho : ℚ) (st : ADMMState) :
    Option (IterData ADMMState) :=
  match gather (fun i => solver i ⟨rho, admmTarget d st i, mode, xum⟩) d.numBuildings with
  | none => none
  | some ls =>
    if lengthsOk d.horizon ls then
      some (assembleIter d (admmNextState d st ls) ls
        (admmPrimal d ls) (admmDual d rho st ls))
    else none

/-- Modelled from the spec (section 4.1.1): the Central baseline.  The
joint problem spanning all entities is solved in a single call; on success
the building trajectories are validated (count and horizon) and the
district trajectory is their sum reduction; any failure or mismatch yields
`solver_failure` with no trajectories. -/
def centralSolve (d : District)
    (joint : Except SolveError (List Trajectory)) : SolveResult :=
  match joint with
  | .error _ => { status := .solver_failure, trajectories := none, iterations := 1 }
  | .ok ls =>
    if ls.length == d.numBuildings && lengthsOk d.horizon ls then
      { status := .converged,
        trajectories := some (aggregateSum d.horizon ls :: ls),
        iterations := 1 }
    else { status := .solver_failure, trajectories := none, iterations := 1 }

/-- Modelled from the spec (section 6, run invocation surface): the
algorithm selection, each variant carrying the external local-solver
collaborator it consults, and the MIQP variant its two mode switches. -/
inductive Algorithm
  | central (joint : Except SolveError (List Trajectory))
  | dualDecomposition (solver : ℕ → Trajectory → Except SolveError Trajectory)
  | exchangeADMM (solver : ℕ → ADMMSignal → Except SolveError Trajectory)
  | exchangeMIQPADMM (solver : ℕ → MIQPSignal → Except SolveError Trajectory)
      (mode : MIQPMode) (xum : XUpdateMode)

/-- The Dual Decomposition stopping test: primal residual below
`eps_primal`; the dual tolerance is not consulted (spec section 4.1.2). -/
def ddStop (epsPrimal : ℚ) : ℚ → ℚ → Bool :=
  fun rp _ => decide (rp < epsPrimal)

/-- The ADMM stopping test: both residuals below their tolerances (spec
section 4.1.3). -/
def admmStop (epsPrimal epsDual : ℚ) : ℚ → ℚ → Bool :=
  fun rp rd => decide (rp < epsPrimal) && decide (rd < epsDual)

/-- Modelled from the spec (section 4.1, public contract):
`solve(entities, run_configuration) -> (per_entity_trajectory, status)`.
The schedule store is passed through so that the (absence of) side effects
on persisted schedules is explicit: the returned store is what the caller
sees after the solve. -/
def solve (alg : Algorithm) (d : District) (cfg : RunConfiguration)
    (store : ScheduleStore) : SolveResult × ScheduleStore :=
  match alg with
  | .central joint => (centralSolve d joint, store)
  | .dualDecomposition solver =>
    runLoop (ddStep solver d cfg.rho) (ddStop cfg.eps_primal) false
      cfg.max_iterations store (zeros d.horizon) 0 none
  | .exchangeADMM solver =>
    runLoop (admmStep solver d cfg.rho) (admmStop cfg.eps_primal cfg.eps_dual) false
      cfg.max_iterations store (admmInit d) 0 none
  | .exchangeMIQPADMM solver mode xum =>
    runLoop (miqpStep solver mode xum d cfg.rho) (admmStop cfg.eps_primal cfg.eps_dual) true
      cfg.max_iterations store (admmInit d) 0 none

/-- Modelled from the spec (sections 3 and 6): the caller-side
finalization persisting the result of a successful solve under a run
label; a result without trajectories persists nothing. -/
def copy_schedule (label : String) (r : SolveResult) (store : ScheduleStore) :
    ScheduleStore :=
  match r.trajectories with
  | some ts => { entries := (label, ts) :: store.entries }
  | none => store

/-- Modelled from the spec (section 4.4) and the MPI interface used by
`example_08_algorithm_parallel_mpi.py` (the interface module itself is not
among the shipped sources): the printing-relevant state of one MPI
process: its rank and whether printing has been disabled for all ranks
other than rank 0. -/
structure MPIInterfaceState where
  rank : ℕ
  printingDisabledForNonRoot : Bool
deriving DecidableEq, Repr

/-- Modelled from the spec (section 4.4): `disable_multiple_printing`
turns off stdout/stderr output on every rank other than rank 0. -/
def disable_multiple_printing (st : MPIInterfaceState) : MPIInterfaceState :=
  { st with printingDisabledForNonRoot := true }

/-- The externally visible output this process produces for one attempted
log message: nothing on a non-root rank once printing has been disabled,
the message itself otherwise. -/
def emit (st : MPIInterfaceState) (msg : String) : List String :=
  if st.printingDisabledForNonRoot ∧ st.rank ≠ 0 then [] else [msg]

/-- The externally visible output this process produces over a whole run:
the concatenation of the visible output of every log message attempted at
any step of any iteration. -/
def runOutput (st : MPIInterfaceState) (msgs : List String) : List String :=
  msgs.flatMap (emit st)

/-- A well-formed per-entity result list: one trajectory per entity
(district first, then the buildings), every trajectory of length
`d.horizon`, and the district trajectory equal to the sum reduction of the
building trajectories. -/
def WellFormed (d : District) (ts : List Trajectory) : Prop :=
  ts.length = d.numBuildings + 1 ∧ (∀ t ∈ ts, t.length = d.horizon) ∧
  ts = aggregateSum d.horizon ts.tail :: ts.tail

/-- The failure scenario of spec sections 7 and 8: one entity of the run
has a local subproblem with no feasible point whatever signal it receives
(for the Central baseline: the joint problem is infeasible). -/
def alwaysInfeasible (alg : Algorithm) (d : District) : Prop :=
  match alg with
  | .central joint => joint = .error .infeasible
  | .dualDecomposition solver =>
    ∃ i, i < d.numBuildings ∧ ∀ sig, solver i sig = .error .infeasible
  | .exchangeADMM solver =>
    ∃ i, i < d.numBuildings ∧ ∀ sig, solver i sig = .error .infeasible
  | .exchangeMIQPADMM solver _ _ =>
    ∃ i, i < d.numBuildings ∧ ∀ sig, solver i sig = .error .infeasible

/-- The boundary scenario of spec section 8: the algorithm is iterative
and, the first iteration having completed, its residuals do not satisfy
the stopping test (the residual tolerances are not met). -/
def firstIterationMisses (alg : Algorithm) (d : District)
    (cfg : RunConfiguration) : Prop :=
  match alg with
  | .central _ => False
  | .dualDecomposition solver =>
    ∃ dta, ddStep solver d cfg.rho (zeros d.horizon) = some dta ∧
      ddStop cfg.eps_primal dta.rPrimal dta.rDual = false
  | .exchangeADMM solver =>
    ∃ dta, admmStep solver d cfg.rho (admmInit d) = some dta ∧
      admmStop cfg.eps_primal cfg.eps_dual dta.rPrimal dta.rDual = false
  | .exchangeMIQPADMM solver mode xum =>
    ∃ dta, miqpStep solver mode xum d cfg.rho (admmInit d) = some dta ∧
      admmStop cfg.eps_primal cfg.eps_dual dta.rPrimal dta.rDual = false

/-- A concrete district used by the witness runs: two buildings, horizon
three. -/
def wDistrict : District := { numBuildings := 2, horizon := 3 }

/-- A concrete run configuration used by the witness runs. -/
def wCfg : RunConfiguration :=
  { rho := 1, eps_primal := 1 / 100, eps_dual := 1 / 10, max_iterations := 5 }

/-- An initially empty schedule store used by the witness runs. -/
def wStore : ScheduleStore := { entries := [] }

/-- A concrete successful joint solve for the Central baseline witness. -/
def wJoint : Except SolveError (List Trajectory) :=
  .ok [[1, 2, 3], [4, 5, 6]]

/-- A concrete deterministic local solver for the Dual Decomposition
witnesses: every building always returns the all-one trajectory. -/
def wSolver : ℕ → Trajectory → Except SolveError Trajectory :=
  fun _ _ => .ok [1, 1, 1]

/-- A run configuration with an iteration budget of one, used by the
iteration-limit witness. -/
def wCfgOne : RunConfiguration :=
  { rho := 1, eps_primal := 1, eps_dual := 1, max_iterations := 1 }

/-- The outcome of the first Dual Decomposition iteration of the
iteration-limit witness run: both buildings contribute the all-one
trajectory, so the aggregate is all twos and the primal residual 6. -/
def wIter : IterData Trajectory :=
  { next := [2, 2, 2], trajs := [[2, 2, 2], [1, 1, 1], [1, 1, 1]],
    rPrimal := 6, rDual := 0 }

end PyCity

namespace Example08

/-- The algorithm selected by a scheduling section of
`example_08_algorithm_parallel_mpi.py`. -/
inductive AlgorithmKind
  | central
  | dualDecomposition
  | exchangeADMM
  | exchangeMIQPADMM
deriving DecidableEq, Repr

/-- A statement of the `main` function of
`example_08_algorithm_parallel_mpi.py`, at the granularity the embedding
needs: a bare string-literal expression statement (a Python expression
statement whose evaluation has no effect), a `solve` call on a constructed
algorithm (with the MIQP mode switches when given), a `copy_schedule`
call, or any other statement (prints, factory calls, assignments of
data). -/
inductive PyStmt
  | stringLiteralExpr (text : String)
  | solveCall (alg : AlgorithmKind) (mode : Option String) (xum : Option String)
  | copyScheduleCall (label : String)
  | otherStmt (text : String)
deriving DecidableEq, Repr

/-- The observable scheduling events a statement performs: evaluating a
bare string literal performs none, and so does any statement that neither
solves nor copies a schedule. -/
def stmtEvents : PyStmt → List PyStmt
  | .stringLiteralExpr _ => []
  | .solveCall a m x => [.solveCall a m x]
  | .copyScheduleCall l => [.copyScheduleCall l]
  | .otherStmt _ => []

/-- The body of `main` in `example_08_algorithm_parallel_mpi.py`, statement
by statement in source order (lines 42 to 196).  Lines 127 to 177 are a
single expression statement consisting of one triple-quoted string
literal; the Central, Dual Decomposition and Exchange ADMM scheduling
sections are inside that literal. -/
def mainStmts : List PyStmt := [
  .otherStmt "mpi_interface = mpi.MPIInterface()",
  .otherStmt "mpi_interface.disable_multiple_printing(stdout=True, stderr=True)",
  .otherStmt "print banner",
  .otherStmt "env = factory.generate_standard_environment(op_horizon=24)",
  .otherStmt "num_sfh = 3",
  .otherStmt "sfh_distribution = ...",
  .otherStmt "sfh_heating_distribution = ...",
  .otherStmt "sfh_device_probs = ...",
  .otherStmt "num_mfh = 0",
  .otherStmt "mfh_distribution = ...",
  .otherStmt "mfh_heating_distribution = ...",
  .otherStmt "mfh_device_probs = ...",
  .otherStmt "district = factory.generate_tabula_district(...)",
  .otherStmt "debug.print_district(district, 2)",
  .stringLiteralExpr "triple-quoted literal, lines 127 to 177: the Central, Dual Decomposition MPI and Exchange ADMM MPI sections, each with its solve, copy_schedule and print statements",
  .otherStmt "print Exchange MIQP ADMM banner",
  .otherStmt "opt = ExchangeMIQPADMMMPI(district, mpi_interface, mode=integer, x_update_mode=constrained, eps_primal=0.1, eps_dual=0.1, rho=0.5, max_iterations=200)",
  .solveCall .exchangeMIQPADMM (some "integer") (some "constrained"),
  .copyScheduleCall "exchange_miqp_admm-constrained",
  .otherStmt "print building schedules loop",
  .otherStmt "print district schedule",
  .otherStmt "print metrics",
  .otherStmt "return"]

/-- The scheduling events one invocation of `main` performs, in order. -/
def mainEvents : List PyStmt := mainStmts.flatMap stmtEvents

end Example08

namespace HtmlServer

/-- The path rewrite performed by `MyHandler.do_GET` in
`src/examples/out_htmls/server.py` before delegating to
`SimpleHTTPRequestHandler.do_GET`: a request for the root path is
redirected to `index.html`; every other path is left unchanged. -/
def doGetPath (p : String) : String :=
  if p = "/" then "index.html" else p

end HtmlServer


namespace PyCity

theorem gatherFrom_length (f : ℕ → Except SolveError Trajectory) :
    ∀ is ts, gatherFrom f is = some ts → ts.length = is.length := by
  intro is
  induction is with
  | nil =>
    intro ts h
    simp only [gatherFrom, Option.some.injEq] at h
    subst h
    rfl
  | cons i is ih =>
    intro ts h
    simp only [gatherFrom] at h
    cases hf : f i with
    | error e => rw [hf] at h; exact absurd h (by simp)
    | ok t =>
      rw [hf] at h
      cases hg : gatherFrom f is with
      | none => rw [hg] at h; exact absurd h (by simp)
      | some ts2 =>
        rw [hg] at h
        simp only [Option.some.injEq] at h
        subst h
        simp [ih ts2 hg]

theorem gather_length (f : ℕ → Except SolveError Trajectory) (n : ℕ)
    (ts : List Trajectory) (h : gather f n = some ts) : ts.length = n := by
  have := gatherFrom_length f (List.range n) ts h
  simpa using this

theorem gatherFrom_error (f : ℕ → Except SolveError Trajectory)
    (i : ℕ) (e : SolveError) (hf : f i = .error e) :
    ∀ is, i ∈ is → gatherFrom f is = none := by
  intro is
  induction is with
  | nil => intro h; exact absurd h (by simp)
  | cons j is ih =>
    intro hmem
    rcases List.mem_cons.mp hmem with hji | hmem2
    · subst hji
      simp only [gatherFrom, hf]
    · simp only [gatherFrom, ih hmem2]
      cases f j <;> rfl

theorem aggregateSum_length (H : ℕ) (ls : List Trajectory) :
    (aggregateSum H ls).length = H := by
  simp [aggregateSum]

theorem aggregateSum_getD (H : ℕ) (ls : List Trajectory) (t : ℕ) (ht : t < H) :
    (aggregateSum H ls).getD t 0 = (ls.map (fun l => l.getD t 0)).sum := by
  simp [aggregateSum, List.getD_eq_getElem?_getD, List.getElem?_map,
    List.getElem?_range ht]

theorem lengthsOk_iff (H : ℕ) (ls : List Trajectory) :
    lengthsOk H ls = true ↔ ∀ t ∈ ls, t.length = H := by
  simp [lengthsOk, List.all_eq_true]

theorem wf_cons (d : District) (ls : List Trajectory)
    (hlen : ls.length = d.numBuildings)
    (hH : lengthsOk d.horizon ls = true) :
    WellFormed d (aggregateSum d.horizon ls :: ls) := by
  refine ⟨by simp [hlen], ?_, by simp⟩
  intro t ht
  rcases List.mem_cons.mp ht with h | h
  · subst h; exact aggregateSum_length d.horizon ls
  · exact (lengthsOk_iff d.horizon ls).mp hH t h

theorem updateIncumbent_pres (P : List Trajectory → Prop) (keepBest : Bool)
    (inc : Option (ℚ × List Trajectory)) (r0 : ℚ) (ts0 : List Trajectory)
    (hinc : ∀ r ts, inc = some (r, ts) → P ts) (h0 : P ts0) :
    ∀ r ts, updateIncumbent keepBest inc r0 ts0 = some (r, ts) → P ts := by
  intro r ts h
  cases inc with
  | none =>
    simp only [updateIncumbent, Option.some.injEq] at h
    obtain ⟨-, h2⟩ := Prod.mk.injEq .. ▸ h
    exact h2 ▸ h0
  | some p =>
    obtain ⟨rb, tb⟩ := p
    simp only [updateIncumbent] at h
    by_cases hb : (keepBest && decide (rb ≤ r0)) = true
    · rw [if_pos hb] at h
      simp only [Option.some.injEq, Prod.mk.injEq] at h
      exact h.2 ▸ hinc rb tb rfl
    · rw [if_neg hb] at h
      simp only [Option.some.injEq, Prod.mk.injEq] at h
      exact h.2 ▸ h0

theorem runLoop_trajs {σ : Type} (step : σ → Option (IterData σ))
    (stop : ℚ → ℚ → Bool) (keepBest : Bool) (P : List Trajectory → Prop)
    (hstep : ∀ s dta, step s = some dta → P dta.trajs) :
    ∀ (fuel : ℕ) (store : ScheduleStore) (s : σ) (k : ℕ)
      (inc : Option (ℚ × List Trajectory)),
      (∀ r ts, inc = some (r, ts) → P ts) →
      ∀ ts, (runLoop step stop keepBest fuel store s k inc).1.trajectories = some ts →
      P ts := by
  intro fuel
  induction fuel with
  | zero =>
    intro store s k inc hinc ts h
    simp only [runLoop] at h
    cases inc with
    | none => simp at h
    | some p =>
      obtain ⟨r0, ts0⟩ := p
      simp at h
      exact h ▸ hinc r0 ts0 rfl
  | succ n ih =>
    intro store s k inc hinc ts h
    rw [runLoop] at h
    split at h
    · simp at h
    · rename_i dta hs
      split at h
      · rename_i hstop
        simp only [Option.some.injEq] at h
        exact h ▸ hstep s dta hs
      · exact ih store dta.next (k + 1)
          (updateIncumbent keepBest inc dta.rPrimal dta.trajs)
          (updateIncumbent_pres P keepBest inc dta.rPrimal dta.trajs hinc
            (hstep s dta hs)) ts h

theorem runLoop_store {σ : Type} (step : σ → Option (IterData σ))
    (stop : ℚ → ℚ → Bool) (keepBest : Bool) :
    ∀ (fuel : ℕ) (store : ScheduleStore) (s : σ) (k : ℕ)
      (inc : Option (ℚ × List Trajectory)),
      (runLoop step stop keepBest fuel store s k inc).2 = store := by
  intro fuel
  induction fuel with
  | zero => intro store s k inc; rfl
  | succ n ih =>
    intro store s k inc
    rw [runLoop]
    split
    · rfl
    · rename_i dta hs
      split
      · rfl
      · exact ih store dta.next (k + 1) _

theorem ddStep_wf (solver : ℕ → Trajectory → Except SolveError Trajectory)
    (d : District) (rho : ℚ) (mu : Trajectory) (dta : IterData Trajectory)
    (h : ddStep solver d rho mu = some dta) : WellFormed d dta.trajs := by
  unfold ddStep at h
  split at h
  · simp at h
  · rename_i ls hg
    split at h
    · rename_i hok
      simp only [Option.some.injEq] at h
      have htr : dta.trajs = aggregateSum d.horizon ls :: ls := by
        rw [← h]; rfl
      rw [htr]
      exact wf_cons d ls (gather_length _ _ _ hg) hok
    · simp at h

theorem admmStep_wf (solver : ℕ → ADMMSignal → Except SolveError Trajectory)
    (d : District) (rho : ℚ) (st : ADMMState) (dta : IterData ADMMState)
    (h : admmStep solver d rho st = some dta) : WellFormed d dta.trajs := by
  unfold admmStep at h
  split at h
  · simp at h
  · rename_i ls hg
    split at h
    · rename_i hok
      simp only [Option.some.injEq] at h
      have htr : dta.trajs = aggregateSum d.horizon ls :: ls := by
        rw [← h]; rfl
      rw [htr]
      exact wf_cons d ls (gather_length _ _ _ hg) hok
    · simp at h

theorem miqpStep_wf (solver : ℕ → MIQPSignal → Except SolveError Trajectory)
    (mode : MIQPMode) (xum : XUpdateMode)
    (d : District) (rho : ℚ) (st : ADMMState) (dta : IterData ADMMState)
    (h : miqpStep solver mode xum d rho st = some dta) : WellFormed d dta.trajs := by
  unfold miqpStep at h
  split at h
  · simp at h
  · rename_i ls hg
    split at h
    · rename_i hok
      simp only [Option.some.injEq] at h
      have htr : dta.trajs = aggregateSum d.horizon ls :: ls := by
        rw [← h]; rfl
      rw [htr]
      exact wf_cons d ls (gather_length _ _ _ hg) hok
    · simp at h

theorem centralSolve_wf (d : District) (joint : Except SolveError (List Trajectory))
    (ts : List Trajectory) (h : (centralSolve d joint).trajectories = some ts) :
    WellFormed d ts := by
  unfold centralSolve at h
  split at h
  · simp at h
  · rename_i ls
    split at h
    · rename_i hc
      simp only [Option.some.injEq] at h
      obtain ⟨h1, h2⟩ := Bool.and_eq_true_iff.mp hc
      exact h ▸ wf_cons d ls (by exact_mod_cast beq_iff_eq.mp h1) h2
    · simp at h

theorem solve_wf (alg : Algorithm) (d : District) (cfg : RunConfiguration)
    (store : ScheduleStore) (ts : List Trajectory)
    (h : (solve alg d cfg store).1.trajectories = some ts) :
    WellFormed d ts := by
  cases alg with
  | central joint => exact centralSolve_wf d joint ts h
  | dualDecomposition solver =>
    exact runLoop_trajs _ _ _ (WellFormed d)
      (fun s dta hs => ddStep_wf solver d cfg.rho s dta hs)
      cfg.max_iterations store (zeros d.horizon) 0 none (by simp) ts h
  | exchangeADMM solver =>
    exact runLoop_trajs _ _ _ (WellFormed d)
      (fun s dta hs => admmStep_wf solver d cfg.rho s dta hs)
      cfg.max_iterations store (admmInit d) 0 none (by simp) ts h
  | exchangeMIQPADMM solver mode xum =>
    exact runLoop_trajs _ _ _ (WellFormed d)
      (fun s dta hs => miqpStep_wf solver mode xum d cfg.rho s dta hs)
      cfg.max_iterations store (admmInit d) 0 none (by simp) ts h

theorem runLoop_none {σ : Type} (step : σ → Option (IterData σ))
    (stop : ℚ → ℚ → Bool) (keepBest : Bool) (fuel : ℕ) (hfuel : 1 ≤ fuel)
    (store : ScheduleStore) (s : σ) (hs : step s = none) :
    runLoop step stop keepBest fuel store s 0 none =
      ({ status := .solver_failure, trajectories := none, iterations := 1 },
        store) := by
  cases fuel with
  | zero => exact absurd hfuel (by simp)
  | succ n => simp [runLoop, hs]

theorem runLoop_one_iter {σ : Type} (step : σ → Option (IterData σ))
    (stop : ℚ → ℚ → Bool) (keepBest : Bool) (store : ScheduleStore)
    (s : σ) (dta : IterData σ) (hs : step s = some dta)
    (hstop : stop dta.rPrimal dta.rDual = false) :
    runLoop step stop keepBest 1 store s 0 none =
      ({ status := .iteration_limit_reached, trajectories := some dta.trajs,
         iterations := 1 }, store) := by
  simp [runLoop, hs, hstop, updateIncumbent]

theorem ddStep_none (solver : ℕ → Trajectory → Except SolveError Trajectory)
    (d : District) (rho : ℚ) (mu : Trajectory) (i : ℕ)
    (hi : i < d.numBuildings)
    (hsol : ∀ sig, solver i sig = .error .infeasible) :
    ddStep solver d rho mu = none := by
  have hg : gather (fun j => solver j mu) d.numBuildings = none :=
    gatherFrom_error _ i _ (hsol mu) _ (List.mem_range.mpr hi)
  unfold ddStep
  rw [hg]

theorem admmStep_none (solver : ℕ → ADMMSignal → Except SolveError Trajectory)
    (d : District) (rho : ℚ) (st : ADMMState) (i : ℕ)
    (hi : i < d.numBuildings)
    (hsol : ∀ sig, solver i sig = .error .infeasible) :
    admmStep solver d rho st = none := by
  have hg : gather (fun j => solver j ⟨rho, admmTarget d st j⟩) d.numBuildings = none :=
    gatherFrom_error _ i _ (hsol _) _ (List.mem_range.mpr hi)
  unfold admmStep
  rw [hg]

theorem miqpStep_none (solver : ℕ → MIQPSignal → Except SolveError Trajectory)
    (mode : MIQPMode) (xum : XUpdateMode)
    (d : District) (rho : ℚ) (st : ADMMState) (i : ℕ)
    (hi : i < d.numBuildings)
    (hsol : ∀ sig, solver i sig = .error .infeasible) :
    miqpStep solver mode xum d rho st = none := by
  have hg : gather (fun j => solver j ⟨rho, admmTarget d st j, mode, xum⟩) d.numBuildings = none :=
    gatherFrom_error _ i _ (hsol _) _ (List.mem_range.mpr hi)
  unfold miqpStep
  rw [hg]

/-- Claim C1: for every algorithm (Central, Dual Decomposition, Exchange
ADMM, Exchange MIQP-ADMM) and every entity in the district, the trajectory
returned by solve has length exactly equal to the configured operation
horizon H (and there is exactly one trajectory per entity: the district
plus each building). -/
theorem solve_trajectory_length_eq_horizon (alg : Algorithm) (d : District)
    (cfg : RunConfiguration) (store : ScheduleStore) (ts : List Trajectory)
    (h : (solve alg d cfg store).1.trajectories = some ts) :
    ts.length = d.numBuildings + 1 ∧ ∀ t ∈ ts, t.length = d.horizon :=
  ⟨(solve_wf alg d cfg store ts h).1, (solve_wf alg d cfg store ts h).2.1⟩

/-- Witness for claim C1: a concrete Central run over two buildings with
horizon three returns three trajectories, each of length three. -/
theorem solve_trajectory_length_eq_horizon_witness :
    (solve (.central wJoint) wDistrict wCfg wStore).1.trajectories =
      some [[5, 7, 9], [1, 2, 3], [4, 5, 6]] ∧
    ([[5, 7, 9], [1, 2, 3], [4, 5, 6]] : List Trajectory).length =
      wDistrict.numBuildings + 1 ∧
    ([4, 5, 6] : Trajectory).length = wDistrict.horizon := by
  have h : (solve (.central wJoint) wDistrict wCfg wStore).1.trajectories =
      some [[5, 7, 9], [1, 2, 3], [4, 5, 6]] := by
    norm_num [solve, centralSolve, wJoint, wDistrict, wCfg, wStore,
      lengthsOk, aggregateSum, List.range_succ]
  exact ⟨h,
    (solve_trajectory_length_eq_horizon (.central wJoint) wDistrict wCfg wStore
      [[5, 7, 9], [1, 2, 3], [4, 5, 6]] h).1,
    (solve_trajectory_length_eq_horizon (.central wJoint) wDistrict wCfg wStore
      [[5, 7, 9], [1, 2, 3], [4, 5, 6]] h).2 [4, 5, 6] (by norm_num)⟩

/-- Claim C2: for every algorithm and every entity, calling solve leaves
the persisted schedule state unchanged; schedules are mutated only by the
subsequent `copy_schedule` finalization by the caller, never by solve
itself and never mid-iteration. -/
theorem solve_preserves_schedule_store (alg : Algorithm) (d : District)
    (cfg : RunConfiguration) (store : ScheduleStore) :
    (solve alg d cfg store).2 = store := by
  cases alg with
  | central joint => rfl
  | dualDecomposition solver => exact runLoop_store _ _ _ _ _ _ _ _
  | exchangeADMM solver => exact runLoop_store _ _ _ _ _ _ _ _
  | exchangeMIQPADMM solver mode xum => exact runLoop_store _ _ _ _ _ _ _ _

/-- Claim C3: after a successful solve, the district (root) trajectory
equals the elementwise sum of the child building trajectories at every
timestep of the horizon. -/
theorem district_trajectory_eq_sum_of_children (alg : Algorithm)
    (d : District) (cfg : RunConfiguration) (store : ScheduleStore)
    (distTraj : Trajectory) (bTrajs : List Trajectory)
    (h : (solve alg d cfg store).1.trajectories = some (distTraj :: bTrajs)) :
    ∀ t, t < d.horizon →
      distTraj.getD t 0 = (bTrajs.map (fun b => b.getD t 0)).sum := by
  have wf := solve_wf alg d cfg store _ h
  have h3 := wf.2.2
  simp only [List.tail_cons] at h3
  have hd : distTraj = aggregateSum d.horizon bTrajs := by
    injection h3
  intro t ht
  rw [hd, aggregateSum_getD d.horizon bTrajs t ht]

/-- Witness for claim C3: in the concrete Central run, the district value
at timestep 1 is the sum of the building values at timestep 1. -/
theorem district_trajectory_eq_sum_of_children_witness :
    (solve (.central wJoint) wDistrict wCfg wStore).1.trajectories =
      some ([5, 7, 9] :: [[1, 2, 3], [4, 5, 6]]) ∧
    ([5, 7, 9] : Trajectory).getD 1 0 =
      (([[1, 2, 3], [4, 5, 6]] : List Trajectory).map (fun b => b.getD 1 0)).sum := by
  have h : (solve (.central wJoint) wDistrict wCfg wStore).1.trajectories =
      some ([5, 7, 9] :: [[1, 2, 3], [4, 5, 6]]) := by
    norm_num [solve, centralSolve, wJoint, wDistrict, wCfg, wStore,
      lengthsOk, aggregateSum, List.range_succ]
  exact ⟨h,
    district_trajectory_eq_sum_of_children (.central wJoint) wDistrict wCfg
      wStore [5, 7, 9] [[1, 2, 3], [4, 5, 6]] h 1 (by decide)⟩

/-- Claim C4: if an entity has an infeasible local subproblem (for
instance contradictory power bounds), solve returns `solver_failure`
after the single failed iteration (no retry within the run), produces no
partial or garbage trajectory, and leaves the schedule state exactly as
it was before the solve. -/
theorem infeasible_local_solve_yields_solver_failure (alg : Algorithm)
    (d : District) (cfg : RunConfiguration) (store : ScheduleStore)
    (hmax : 1 ≤ cfg.max_iterations) (hinf : alwaysInfeasible alg d) :
    solve alg d cfg store =
      ({ status := .solver_failure, trajectories := none, iterations := 1 },
        store) := by
  cases alg with
  | central joint =>
    have hj : joint = .error .infeasible := hinf
    simp [solve, centralSolve, hj]
  | dualDecomposition solver =>
    obtain ⟨i, hi, hsol⟩ := hinf
    exact runLoop_none _ _ _ _ hmax _ _
      (ddStep_none solver d cfg.rho (zeros d.horizon) i hi hsol)
  | exchangeADMM solver =>
    obtain ⟨i, hi, hsol⟩ := hinf
    exact runLoop_none _ _ _ _ hmax _ _
      (admmStep_none solver d cfg.rho (admmInit d) i hi hsol)
  | exchangeMIQPADMM solver mode xum =>
    obtain ⟨i, hi, hsol⟩ := hinf
    exact runLoop_none _ _ _ _ hmax _ _
      (miqpStep_none solver mode xum d cfg.rho (admmInit d) i hi hsol)

/-- Witness for claim C4: a Dual Decomposition run in which building 0 is
always infeasible fails with `solver_failure`, no trajectories, one
iteration, and an untouched store. -/
theorem infeasible_local_solve_yields_solver_failure_witness :
    1 ≤ wCfg.max_iterations ∧
    solve (.dualDecomposition (fun _ _ => .error .infeasible)) wDistrict wCfg wStore =
      ({ status := .solver_failure, trajectories := none, iterations := 1 },
        wStore) :=
  ⟨by decide,
   infeasible_local_solve_yields_solver_failure
     (.dualDecomposition (fun _ _ => .error .infeasible)) wDistrict wCfg wStore
     (by decide) ⟨0, by decide, fun _ => rfl⟩⟩

/-- Claim C5: for every iterative algorithm, if the run configuration has
`max_iterations = 1` and the residual tolerances are not satisfied after
the first iteration, solve terminates after exactly one iteration and
reports `iteration_limit_reached`. -/
theorem max_iterations_one_yields_iteration_limit (alg : Algorithm)
    (d : District) (cfg : RunConfiguration) (store : ScheduleStore)
    (hmax : cfg.max_iterations = 1)
    (hmiss : firstIterationMisses alg d cfg) :
    (solve alg d cfg store).1.status = .iteration_limit_reached ∧
    (solve alg d cfg store).1.iterations = 1 := by
  cases alg with
  | central joint => exact False.elim hmiss
  | dualDecomposition solver =>
    obtain ⟨dta, h1, h2⟩ := hmiss
    have heq : solve (.dualDecomposition solver) d cfg store =
        ({ status := .iteration_limit_reached,
           trajectories := some dta.trajs, iterations := 1 }, store) := by
      show runLoop (ddStep solver d cfg.rho) (ddStop cfg.eps_primal) false
        cfg.max_iterations store (zeros d.horizon) 0 none = _
      rw [hmax]
      exact runLoop_one_iter _ _ _ store (zeros d.horizon) dta h1 h2
    rw [heq]
    exact ⟨rfl, rfl⟩
  | exchangeADMM solver =>
    obtain ⟨dta, h1, h2⟩ := hmiss
    have heq : solve (.exchangeADMM solver) d cfg store =
        ({ status := .iteration_limit_reached,
           trajectories := some dta.trajs, iterations := 1 }, store) := by
      show runLoop (admmStep solver d cfg.rho)
        (admmStop cfg.eps_primal cfg.eps_dual) false
        cfg.max_iterations store (admmInit d) 0 none = _
      rw [hmax]
      exact runLoop_one_iter _ _ _ store (admmInit d) dta h1 h2
    rw [heq]
    exact ⟨rfl, rfl⟩
  | exchangeMIQPADMM solver mode xum =>
    obtain ⟨dta, h1, h2⟩ := hmiss
    have heq : solve (.exchangeMIQPADMM solver mode xum) d cfg store =
        ({ status := .iteration_limit_reached,
           trajectories := some dta.trajs, iterations := 1 }, store) := by
      show runLoop (miqpStep solver mode xum d cfg.rho)
        (admmStop cfg.eps_primal cfg.eps_dual) true
        cfg.max_iterations store (admmInit d) 0 none = _
      rw [hmax]
      exact runLoop_one_iter _ _ _ store (admmInit d) dta h1 h2
    rw [heq]
    exact ⟨rfl, rfl⟩

/-- Witness for claim C5: a Dual Decomposition run with budget one whose
first iteration leaves a primal residual of 6 against a tolerance of 1
stops after exactly one iteration with `iteration_limit_reached`. -/
theorem max_iterations_one_yields_iteration_limit_witness :
    wCfgOne.max_iterations = 1 ∧
    (solve (.dualDecomposition wSolver) wDistrict wCfgOne wStore).1.status =
      .iteration_limit_reached ∧
    (solve (.dualDecomposition wSolver) wDistrict wCfgOne wStore).1.iterations = 1 := by
  have h1 : ddStep wSolver wDistrict wCfgOne.rho (zeros wDistrict.horizon) =
      some wIter := by
    norm_num [ddStep, gather, gatherFrom, wSolver, wDistrict, wCfgOne,
      lengthsOk, aggregateSum, assembleIter, vecAdd, vecScale, norm1, zeros,
      wIter, List.range_succ, List.replicate, List.zipWith]
  have h2 : ddStop wCfgOne.eps_primal wIter.rPrimal wIter.rDual = false := by
    norm_num [ddStop, wIter, wCfgOne]
  exact ⟨rfl,
    max_iterations_one_yields_iteration_limit (.dualDecomposition wSolver)
      wDistrict wCfgOne wStore rfl ⟨wIter, h1, h2⟩⟩

/-- Claim C6: solve is deterministic: two runs with the same algorithm,
entity inputs, run configuration and starting schedule state produce
identical results (identical statuses, iteration counts and trajectories
for every entity). -/
theorem solve_deterministic (alg1 alg2 : Algorithm) (d1 d2 : District)
    (cfg1 cfg2 : RunConfiguration) (st1 st2 : ScheduleStore)
    (ha : alg1 = alg2) (hd : d1 = d2) (hc : cfg1 = cfg2) (hs : st1 = st2) :
    solve alg1 d1 cfg1 st1 = solve alg2 d2 cfg2 st2 := by
  subst ha
  subst hd
  subst hc
  subst hs
  rfl

/-- Witness for claim C6: the concrete Dual Decomposition run repeated
with the same inputs gives the same result. -/
theorem solve_deterministic_witness :
    solve (.dualDecomposition wSolver) wDistrict wCfg wStore =
    solve (.dualDecomposition wSolver) wDistrict wCfg wStore :=
  solve_deterministic (.dualDecomposition wSolver) (.dualDecomposition wSolver)
    wDistrict wDistrict wCfg wCfg wStore wStore rfl rfl rfl rfl

/-- Claim C7: the Dual Decomposition result does not depend on
`eps_dual`: two run configurations differing only in the `eps_dual` value
give the same trajectories, status and iteration count, because the
stopping decision uses only the primal residual and the iteration
budget. -/
theorem dual_decomposition_ignores_eps_dual
    (solver : ℕ → Trajectory → Except SolveError Trajectory) (d : District)
    (cfg1 cfg2 : RunConfiguration) (store : ScheduleStore)
    (hr : cfg1.rho = cfg2.rho) (hp : cfg1.eps_primal = cfg2.eps_primal)
    (hm : cfg1.max_iterations = cfg2.max_iterations) :
    solve (.dualDecomposition solver) d cfg1 store =
    solve (.dualDecomposition solver) d cfg2 store := by
  show runLoop (ddStep solver d cfg1.rho) (ddStop cfg1.eps_primal) false
      cfg1.max_iterations store (zeros d.horizon) 0 none =
    runLoop (ddStep solver d cfg2.rho) (ddStop cfg2.eps_primal) false
      cfg2.max_iterations store (zeros d.horizon) 0 none
  rw [hr, hp, hm]

/-- Witness for claim C7: two configurations equal except for
`eps_dual` (1/10 against 7) give identical Dual Decomposition results. -/
theorem dual_decomposition_ignores_eps_dual_witness :
    solve (.dualDecomposition wSolver) wDistrict
      { rho := 1, eps_primal := 1 / 100, eps_dual := 1 / 10, max_iterations := 5 }
      wStore =
    solve (.dualDecomposition wSolver) wDistrict
      { rho := 1, eps_primal := 1 / 100, eps_dual := 7, max_iterations := 5 }
      wStore :=
  dual_decomposition_ignores_eps_dual wSolver wDistrict
    { rho := 1, eps_primal := 1 / 100, eps_dual := 1 / 10, max_iterations := 5 }
    { rho := 1, eps_primal := 1 / 100, eps_dual := 7, max_iterations := 5 }
    wStore rfl rfl rfl

/-- Claim C8: after `disable_multiple_printing` is applied, no rank other
than rank 0 produces externally visible log output at any step of any
iteration (whatever sequence of messages the run attempts to log). -/
theorem no_output_from_nonroot_ranks (st : MPIInterfaceState)
    (msgs : List String) (h : st.rank ≠ 0) :
    runOutput (disable_multiple_printing st) msgs = [] := by
  induction msgs with
  | nil => rfl
  | cons m ms ih =>
    have he : emit (disable_multiple_printing st) m = [] := by
      simp [emit, disable_multiple_printing, h]
    simp only [runOutput, List.flatMap_cons] at ih ⊢
    rw [he]
    simpa using ih

/-- Witness for claim C8: a rank-1 process with printing disabled emits
nothing for a two-message run. -/
theorem no_output_from_nonroot_ranks_witness :
    runOutput (disable_multiple_printing
      { rank := 1, printingDisabledForNonRoot := false })
      ["iteration 1", "iteration 2"] = [] :=
  no_output_from_nonroot_ranks
    { rank := 1, printingDisabledForNonRoot := false }
    ["iteration 1", "iteration 2"] (by decide)

end PyCity

namespace Example08

/-- Claim C9: in the `main` function of
`example_08_algorithm_parallel_mpi.py`, only the Exchange MIQP-ADMM solve
(mode integer, x_update_mode constrained) is ever executed: the Central,
Dual Decomposition and Exchange ADMM sections of lines 127 to 177 sit
inside a bare string-literal expression and have no effect, so one
invocation of `main` performs exactly one solve and exactly one
copy_schedule. -/
theorem main_single_solve_events :
    mainEvents = [.solveCall .exchangeMIQPADMM (some "integer") (some "constrained"),
      .copyScheduleCall "exchange_miqp_admm-constrained"] ∧
    (mainEvents.countP (fun e =>
      match e with | .solveCall _ _ _ => true | _ => false)) = 1 ∧
    (mainEvents.countP (fun e =>
      match e with | .copyScheduleCall _ => true | _ => false)) = 1 :=
  ⟨rfl, rfl, rfl⟩

end Example08

namespace HtmlServer

/-- Claim C10: for every GET request (whose path, in HTTP origin form,
begins with a slash), `MyHandler.do_GET` serves `index.html` exactly when
the request path is `/`, and leaves every other request path unchanged
before delegating to the default file handler. -/
theorem do_get_serves_index_iff_root (p : String) :
    (p = "/" → doGetPath p = "index.html") ∧
    (p ≠ "/" → doGetPath p = p) ∧
    (p.data.head? = some '/' → (doGetPath p = "index.html" ↔ p = "/")) := by
  refine ⟨fun h => by simp [doGetPath, h], fun h => by simp [doGetPath, h], fun hh => ?_⟩
  constructor
  · intro he
    by_contra hne
    rw [doGetPath, if_neg hne] at he
    subst he
    exact absurd hh (by decide)
  · intro h
    simp [doGetPath, h]

/-- Witness for claim C10: the root path is rewritten to `index.html`,
a concrete other path is left unchanged, and for a slash-headed non-root
path the rewrite result differs from `index.html`. -/
theorem do_get_serves_index_iff_root_witness :
    doGetPath "/" = "index.html" ∧
    doGetPath "/plot_peak_shaving.html" = "/plot_peak_shaving.html" ∧
    ¬(doGetPath "/web" = "index.html") :=
  ⟨(do_get_serves_index_iff_root "/").1 rfl,
   (do_get_serves_index_iff_root "/plot_peak_shaving.html").2.1 (by decide),
   fun h => absurd (((do_get_serves_index_iff_root "/web").2.2 (by decide)).mp h)
     (by decide)⟩

end HtmlServer
